import Mathlib

/-!
Verification of the subtitle segment core of the ViDove repository
(`src/srt_util/srt.py`), shallowly embedded in Lean 4.

Modelling conventions, used throughout:
* Python `str` values are modelled as `List Char` (Python `len` counts
  codepoints, which matches `List.length`).
* Python `float` timestamps are modelled as `ℚ`; `int(x)` is truncation
  toward zero (`truncQ`), and Python's `%` on numbers is the floor-mod
  (`pymod`).
* A formatted time string `HH:MM:SS,mmm` produced by the constructor and
  re-read by the text-block constructor is modelled by the pair
  (total seconds : ℤ, millisecond digits : ℤ): Python renders the pair with
  `str(timedelta)` + string surgery and parses it back with `split`/`int`,
  which is a bijection between the displayed string and this pair
  (`timedelta` normalisation `ms ≥ 1000 → +1s` is applied when the pair is
  built).  The duration string is the pair of both endpoint pairs.
* A Python exception is `Except.error ()`; a function that cannot raise
  returns its value directly.  Recursion of unbounded depth carries a fuel
  counter; `none` means the fuel (the Python call stack) was exhausted.
-/

/-- The supported language tags of `punctuation_dict` in `srt.py`. -/
inductive Lang where
  | EN | ES | FR | DE | RU | ZH | JA | AR | KR
deriving DecidableEq, Inhabited, Repr

open Lang

/-- `punctuation_dict[lang]["sentence_end"]` from `srt.py`. -/
def sentEnd : Lang → List Char
  | EN => ['.', '!', '?', ';']
  | ES => ['.', '!', '?', ';', '¡', '¿']
  | FR => ['.', '!', '?', ';']
  | DE => ['.', '!', '?', ';']
  | RU => ['.', '!', '?', ';']
  | ZH => ['。', '！', '？']
  | JA => ['。', '！', '？']
  | AR => ['.', '!', '?', ';', '؟']
  | KR => ['.', '!', '?', ';']

/-- `punctuation_dict[lang]["comma"]` from `srt.py` (note: a two-character
string `", "` for most languages, a single character for ZH/JA). -/
def comma : Lang → List Char
  | EN => [',', ' ']
  | ES => [',', ' ']
  | FR => [',', ' ']
  | DE => [',', ' ']
  | RU => [',', ' ']
  | ZH => ['，']
  | JA => ['、']
  | AR => ['،', ' ']
  | KR => [',', ' ']

/-- Does `s` start with `pat`? (helper for Python's substring search). -/
def startsWith : List Char → List Char → Bool
  | _, [] => true
  | [], _ :: _ => false
  | c :: cs, p :: ps => c = p && startsWith cs ps

/-- Python's `pat in s` substring containment on strings. -/
def hasSubstr : List Char → List Char → Bool
  | [], pat => pat.isEmpty
  | c :: cs, pat => startsWith (c :: cs) pat || hasSubstr cs pat

/-- Occurrence positions of `pat` in a string, modelling
`[m.start() for m in re.finditer(pat, s)]`.  `re.finditer` yields
non-overlapping matches; every comma pattern of `punctuation_dict` (`", "`,
`"，"`, `"、"`, `"، "`) has no self-overlapping occurrences, so listing all
occurrence positions coincides with it on the patterns the code uses. -/
def findOcc (pat : List Char) : List Char → ℕ → List ℕ
  | [], _ => []
  | c :: cs, i =>
    if startsWith (c :: cs) pat then i :: findOcc pat cs (i + 1)
    else findOcc pat cs (i + 1)

/-- Python `str.split(sep)` for the two-character separator `"\n\n"`. -/
def splitOnNlNl : List Char → List (List Char)
  | [] => [[]]
  | '\n' :: '\n' :: rest => [] :: splitOnNlNl rest
  | c :: rest =>
    match splitOnNlNl rest with
    | [] => [[c]]
    | l :: ls => (c :: l) :: ls

/-- Python `str.split('\n')`. -/
def splitOnNl : List Char → List (List Char)
  | [] => [[]]
  | '\n' :: rest => [] :: splitOnNl rest
  | c :: rest =>
    match splitOnNl rest with
    | [] => [[c]]
    | l :: ls => (c :: l) :: ls

/-- Python `str.lstrip()`: drop leading whitespace. -/
def lstripChars (s : List Char) : List Char := s.dropWhile Char.isWhitespace

/-- Python `int(q)` on a number: truncation toward zero. -/
def truncQ (q : ℚ) : ℤ := if q < 0 then -(⌊-q⌋) else ⌊q⌋

/-- Python `a % b` on numbers (floor-mod, result has the divisor's sign). -/
def pymod (a b : ℚ) : ℚ := a - b * ⌊a / b⌋

/-- `int((t * 100) % 100 * 10)` from `SrtSegment.__init__`: the
three-digit millisecond component of a timestamp `t`. -/
def msInt (t : ℚ) : ℤ := truncQ (pymod (t * 100) 100 * 10)

/-- A `timedelta`-normalised display pair (seconds, milliseconds) for a
whole number of seconds plus a (possibly ≥ 1000) millisecond count. -/
def mkTimePair (sec ms : ℤ) : ℤ × ℤ := (sec + ms / 1000, ms % 1000)

/-- The shallow embedding of `SrtSegment`.  `stop` is the Python attribute
`end` (a Lean keyword).  `startP`/`endP` model `start_time_str` /
`end_time_str` (see the header comment), `duration` models the
`"... --> ..."` duration string as the pair of both. -/
structure Segment where
  srcLang : Lang
  tgtLang : Lang
  sourceText : List Char
  translation : List Char
  start : ℚ
  stop : ℚ
  startMs : ℚ
  endMs : ℚ
  startP : ℤ × ℤ
  endP : ℤ × ℤ
  duration : (ℤ × ℤ) × (ℤ × ℤ)
deriving DecidableEq, Inhabited, Repr

/-- The record (`dict`) branch of `SrtSegment.__init__`, for a raw
`{start, end, text}` record.  The only failure point of the Python code is
the string surgery `str(self.end_time).split('.')[1]`: when the displayed
millisecond count is a nonzero multiple of 1000 (only reachable as
`end_ms = 1000` after the +500ms nudge), `str(timedelta)` prints no
fractional part and the index `[1]` raises `IndexError`; that is the
`Except.error` case.  No comparison of `start` with `end` is performed
anywhere in the branch. -/
def constructRecord (sl tl : Lang) (s e : ℚ) (txt : List Char) :
    Except Unit Segment :=
  let sMs : ℤ := msInt s
  let eMs0 : ℤ := msInt e
  let eMs : ℤ := if sMs = eMs0 ∧ truncQ s = truncQ e then eMs0 + 500 else eMs0
  if sMs ≠ 0 ∧ sMs % 1000 = 0 then Except.error ()
  else if eMs ≠ 0 ∧ eMs % 1000 = 0 then Except.error ()
  else Except.ok
    { srcLang := sl
      tgtLang := tl
      sourceText := lstripChars txt
      translation := []
      start := s
      stop := e
      startMs := (sMs : ℚ)
      endMs := (eMs : ℚ)
      startP := mkTimePair (truncQ s) sMs
      endP := mkTimePair (truncQ e) eMs
      duration := (mkTimePair (truncQ s) sMs, mkTimePair (truncQ e) eMs) }

/-- The list (text-block) branch of `SrtSegment.__init__`: duration
timestamps are re-parsed from their display pairs
(`start = H*3600 + M*60 + S + (int(ms_digits) / 10) / 100`), the source
text is taken verbatim, and the translation line is used when the block
has one (`len(args[0]) ≥ 5`). -/
def constructBlock (sl tl : Lang) (sPair ePair : ℤ × ℤ) (txt : List Char)
    (trans : Option (List Char)) : Segment :=
  let sMs : ℚ := (sPair.2 : ℚ) / 10
  let eMs : ℚ := (ePair.2 : ℚ) / 10
  { srcLang := sl
    tgtLang := tl
    sourceText := txt
    translation := trans.getD []
    start := (sPair.1 : ℚ) + sMs / 100
    stop := (ePair.1 : ℚ) + eMs / 100
    startMs := sMs
    endMs := eMs
    startP := sPair
    endP := ePair
    duration := (sPair, ePair) }

/-- `SrtSegment.merge_seg`: in-place merge of `seg` into `self`, modelled
as the post-state of the receiver.  Texts are concatenated with a single
separating space; the end time, end milliseconds and end display string
become `seg`'s, and the duration string is rebuilt from the unchanged
start display string. -/
def mergeSeg (a b : Segment) : Segment :=
  { a with
    sourceText := a.sourceText ++ ' ' :: b.sourceText
    translation := a.translation ++ ' ' :: b.translation
    endP := b.endP
    stop := b.stop
    endMs := b.endMs
    duration := (a.startP, b.endP) }

/-- `SrtSegment.__add__`: `result = deepcopy(self); result.merge_seg(other);
return result`.  A deep copy of a value is the value itself. -/
def addSeg (a b : Segment) : Segment := mergeSeg a b

/-- State-passing view of `merge_seg`: the Python method assigns only to
`self.*` fields, so the post-state of the argument is the argument. -/
def mergeSegOp (self other : Segment) : Segment × Segment :=
  (mergeSeg self other, other)

/-- `deepcopy` on a value. -/
def deepcopySeg (s : Segment) : Segment := s

/-- State-passing view of `__add__`: returns (result, post-state of the
receiver, post-state of the argument).  The mutations of `merge_seg` are
applied to the deep copy, so the receiver's own post-state is its prior
value. -/
def addOp (a b : Segment) : Segment × Segment × Segment :=
  let m := mergeSegOp (deepcopySeg a) b
  (m.1, a, m.2)

/-- `SrtScript.merge_segs`: `deepcopy` the first indexed segment, then fold
`+=` (which is `__add__`) over the rest; raises `NotImplementedError`
(modelled `none`) on an empty index list.  Index lists are modelled by the
segment lists they select. -/
def mergeSegsList : List Segment → Option Segment
  | [] => none
  | s :: rest => some (rest.foldl addSeg s)

/-- The merge trigger of `SrtScript.form_whole_sentence`, line 232 of
`srt.py`: `seg.source_text[-1] in ending_puncs and len(seg.source_text) > 10
and 'vs.' not in seg.source_text`.  Note the third conjunct is substring
containment anywhere in the text.  (On an empty source text the Python
indexing `[-1]` would raise `IndexError`; theorems about this function
exclude empty source texts by hypothesis.) -/
def trigger (l : Lang) (seg : Segment) : Bool :=
  match seg.sourceText.getLast? with
  | none => false
  | some c =>
    (sentEnd l).contains c && decide (10 < seg.sourceText.length) &&
      !(hasSubstr seg.sourceText ['v', 's', '.'])

/-- The merge trigger as the claim words it ("does not END in the literal
abbreviation `vs.`"), kept separate from `trigger` (the code's condition)
for comparison. -/
def triggerClaimed (l : Lang) (seg : Segment) : Bool :=
  match seg.sourceText.getLast? with
  | none => false
  | some c =>
    (sentEnd l).contains c && decide (10 < seg.sourceText.length) &&
      !(decide (seg.sourceText.drop (seg.sourceText.length - 3)
          = ['v', 's', '.']))

/-- The scan loop of `form_whole_sentence`: walk the segments accumulating
a current `sentence` run; on a triggering segment close the run into
`merge_list`, otherwise keep accumulating.  Returns
(`merge_list`, the leftover `sentence` still open when the loop ends).
Index lists are modelled by the segment lists they select. -/
def runsOfAux (l : Lang) : List Segment → List Segment →
    List (List Segment) × List Segment
  | [], acc => ([], acc)
  | s :: rest, acc =>
    if trigger l s then
      let p := runsOfAux l rest []
      ((acc ++ [s]) :: p.1, p.2)
    else runsOfAux l rest (acc ++ [s])

/-- The scan loop of `form_whole_sentence` started with an empty run. -/
def runsOf (l : Lang) (segs : List Segment) :
    List (List Segment) × List Segment := runsOfAux l segs []

/-- `merge_segs` on a run known to be nonempty (the runs built by
`form_whole_sentence` always are; on `[]` the Python code would raise
`NotImplementedError`, here a default value stands in). -/
def mergeRunD : List Segment → Segment
  | [] => default
  | s :: rest => rest.foldl addSeg s

/-- `SrtScript.form_whole_sentence`: replace the segment list by the merge
of each closed run.  The leftover open run of the scan loop is not in
`merge_list` and is dropped, exactly as in the source. -/
def formWholeSentence (l : Lang) (segs : List Segment) : List Segment :=
  (runsOf l segs).1.map mergeRunD

/-- Python `"Note:" in line`. -/
def lineHasNote (line : List Char) : Bool :=
  hasSubstr line ['N', 'o', 't', 'e', ':']

/-- The assignment loop at the end of `SrtScript.set_translation`
(lines 330-342): walk the segment slice with index `i`; when `i` is within
`lines`, a line containing `"Note:"` reaches the statement
`max_num -= 1` whose variable is defined nowhere in the function or module,
so Python raises an unbound-variable error (`Except.error`); otherwise one
single leading space or newline character is dropped (`lines[i][0]`
raises `IndexError` on an empty line, also `Except.error`) and the line
becomes the segment's translation.  Segments at indices beyond `lines`
keep their translation. -/
def assignLoop : ℕ → List (List Char) → List Segment →
    Except Unit (List Segment)
  | _, _, [] => Except.ok []
  | i, lines, seg :: rest =>
    match lines[i]? with
    | some line =>
      if lineHasNote line then Except.error ()
      else
        match line with
        | [] => Except.error ()
        | c :: cs =>
          let line' := if c = ' ' ∨ c = '\n' then cs else c :: cs
          match assignLoop (i + 1) lines rest with
          | Except.error e => Except.error e
          | Except.ok rest' =>
            Except.ok ({ seg with translation := line' } :: rest')
    | none =>
      match assignLoop (i + 1) lines rest with
      | Except.error e => Except.error e
      | Except.ok rest' => Except.ok (seg :: rest')

/-- The `while flag` inner loop of `set_translation` (lines 292-301): call
`inner_func` (the external translator, modelled by `oracle`, taking a
running call counter and the current `translate` text) and retry on any
exception, with NO bound of its own; `fuel` makes the unbounded Python
loop a total function (`none` = fuel exhausted).  Returns the successful
reply and the next call index. -/
def innerRetry (oracle : ℕ → List Char → Except Unit (List Char)) :
    ℕ → List Char → ℕ → Option (List Char × ℕ)
  | _, _, 0 => none
  | k, t, fuel + 1 =>
    match oracle k t with
    | Except.ok s => some (s, k + 1)
    | Except.error _ => innerRetry oracle (k + 1) t fuel

/-- The `while count < 5 and len(lines) != required` reconciliation loop of
`set_translation` (lines 284-302), with `r = 5 - count` as the recursion
measure.  Each iteration obtains one successful corrective reply through
`innerRetry` and re-splits it on a single newline.  Returns the final
`lines`, the total number of translator calls made, and `count`. -/
def retryLoopAux (oracle : ℕ → List Char → Except Unit (List Char))
    (required innerFuel : ℕ) :
    ℕ → List (List Char) → List Char → ℕ → ℕ →
    Option (List (List Char) × ℕ × ℕ)
  | 0, lines, _, k, count => some (lines, k, count)
  | r + 1, lines, t, k, count =>
    if lines.length = required then some (lines, k, count)
    else
      match innerRetry oracle k t innerFuel with
      | none => none
      | some (t', k') =>
        retryLoopAux oracle required innerFuel r (splitOnNl t') t' k'
          (count + 1)

/-- `SrtScript.set_translation`: split the translated block on the double
newline; when the line count is short, run the bounded reconciliation loop
(5 iterations); then assign lines to the segment slice
`segments[start_seg_id - 1 : end_seg_id]` positionally, writing the
updated slice back into the collection.  Logging and the audit-log file
writes are side effects with no bearing on the returned data and are not
modelled. -/
def setTranslationF (oracle : ℕ → List Char → Except Unit (List Char))
    (innerFuel startId endId : ℕ) (translate : List Char)
    (segs : List Segment) : Option (Except Unit (List Segment)) :=
  let required := endId - startId + 1
  let lines0 := splitOnNlNl translate
  let slice := (segs.drop (startId - 1)).take (endId - (startId - 1))
  let cont := fun (lines : List (List Char)) =>
    match assignLoop 0 lines slice with
    | Except.error e => some (Except.error e)
    | Except.ok slice' =>
      some (Except.ok (segs.take (startId - 1) ++ slice' ++
        segs.drop (startId - 1 + slice.length)))
  if lines0.length < required then
    match retryLoopAux oracle required innerFuel 5 lines0 translate 0 0 with
    | none => none
    | some (lines', _, _) => cont lines'
  else cont lines0

/-- The median-comma selection of `split_seg`:
`commas[len(commas) // 2]` when the count is odd, else
`commas[len(commas) // 2 - 1]`.  Only evaluated on nonempty lists; the
default 0 is never reached there. -/
def pickMid (l : List ℕ) : ℕ :=
  if l.length % 2 = 1 then l.getD (l.length / 2) 0
  else l.getD (l.length / 2 - 1) 0

/-- Python `char.encode('utf-8').isalpha()`: true exactly for the ASCII
letters (the encoding of any non-ASCII character contains non-letter
bytes, and `bytes.isalpha` is ASCII-only). -/
def isAsciiAlpha (c : Char) : Bool :=
  decide (97 ≤ c.toNat ∧ c.toNat ≤ 122) ||
    decide (65 ≤ c.toNat ∧ c.toNat ≤ 90)

/-- The fallback scan of `split_seg` (lines 381-384): from the character
midpoint, advance to the first position holding a non-ASCII-letter
character; if every remaining character is an ASCII letter the midpoint
stays. -/
def firstNonAlphaFrom (l : List Char) (i : ℕ) : ℕ :=
  match (l.drop i).findIdx? (fun c => !isAsciiAlpha c) with
  | some j => i + j
  | none => i

/-- The leading-comma strip applied to the translation at the top of
`split_seg` (lines 353-354): `seg.translation[0] == tgt_comma_str` compares
the single first character with the whole comma string, so it can only
fire for the single-character commas (ZH/JA).  Callers guard against the
empty translation (Python would raise `IndexError` there). -/
def postStripTrans (tl : Lang) : List Char → List Char
  | [] => []
  | t0 :: ts => if [t0] = comma tl then ts else t0 :: ts

/-- The split guard used by `check_len_and_split` (line 430) and by both
recursive call sites inside `split_seg` (lines 413, 418):
`len(seg.translation) > text_threshold and (seg.end - seg.start) >
time_threshold`. -/
def needsSplitB (tThr : ℕ) (tiThr : ℚ) (seg : Segment) : Bool :=
  decide (tThr < seg.translation.length) &&
    decide (tiThr < seg.stop - seg.start)

/-- The leading-comma strip applied to the source text at the top of
`split_seg` (lines 350-352): remove the two-character comma string from
the front when the text is longer than 2 and starts with it. -/
def stripSrcComma (sl : Lang) (st0 : List Char) : List Char :=
  if 2 < st0.length ∧ st0.take 2 = comma sl then st0.drop 2 else st0

/-- The source-side split index of `split_seg` (lines 360-372): the median
comma occurrence, else the median space, else 0. -/
def srcSplitIdx (sl : Lang) (st : List Char) : ℕ :=
  let srcCommas := findOcc (comma sl) st 0
  if srcCommas ≠ [] then pickMid srcCommas
  else
    let sp := findOcc [' '] st 0
    if sp ≠ [] then pickMid sp else 0

/-- The translation-side split index of `split_seg` (lines 374-384): the
median comma occurrence, else the midpoint advanced to the first
non-ASCII-letter character. -/
def transSplitIdx (tl : Lang) (tr : List Char) : ℕ :=
  let transCommas := findOcc (comma tl) tr 0
  if transCommas ≠ [] then pickMid transCommas
  else firstNonAlphaFrom tr (tr.length / 2)

/-- One bisection step of `SrtScript.split_seg` (lines 344-410), up to but
not including the recursive calls: strip a leading source comma string and
a leading translation comma character, pick the split indices, split the
time proportionally to the translation index, and build the two halves
through the record constructor, attaching the sliced translations.
`Except.error` covers the three Python exceptions of this region:
`seg.translation[0]` on an empty translation (`IndexError`), the division
`trans_split_idx / (len(seg.translation) - 1)` when the (post-strip)
translation has length 1 (`ZeroDivisionError`), and a failing record
construction. -/
def splitOnce (sl tl : Lang) (seg : Segment) :
    Except Unit (Segment × Segment) :=
  let st := stripSrcComma sl seg.sourceText
  match seg.translation with
  | [] => Except.error ()
  | t0 :: ts =>
    let tr := postStripTrans tl (t0 :: ts)
    let srcIdx := srcSplitIdx sl st
    let transIdx := transSplitIdx tl tr
    if tr.length = 1 then Except.error ()
    else
      let ratio : ℚ := (transIdx : ℚ) / ((tr.length : ℚ) - 1)
      let e1 : ℚ := seg.start + (seg.stop - seg.start) * ratio
      match constructRecord sl tl seg.start e1 (st.take srcIdx) with
      | Except.error err => Except.error err
      | Except.ok g1 =>
        match constructRecord sl tl e1 seg.stop (st.drop srcIdx) with
        | Except.error err => Except.error err
        | Except.ok g2 =>
          Except.ok ({ g1 with translation := tr.take transIdx },
            { g2 with translation := tr.drop transIdx })

/-- The full recursion of `SrtScript.split_seg`: bisect, then recurse into
each half while the half still satisfies the split guard, otherwise emit
the half as a leaf.  `fuel` bounds the recursion depth (the Python call
stack); `none` means the depth bound was hit. -/
def splitSegF (sl tl : Lang) (tThr : ℕ) (tiThr : ℚ) :
    ℕ → Segment → Option (Except Unit (List Segment))
  | 0, _ => none
  | n + 1, seg =>
    match splitOnce sl tl seg with
    | Except.error e => some (Except.error e)
    | Except.ok (g1, g2) =>
      match (if needsSplitB tThr tiThr g1 then splitSegF sl tl tThr tiThr n g1
        else some (Except.ok [g1])) with
      | none => none
      | some (Except.error e) => some (Except.error e)
      | some (Except.ok l1) =>
        match (if needsSplitB tThr tiThr g2 then
            splitSegF sl tl tThr tiThr n g2
          else some (Except.ok [g2])) with
        | none => none
        | some (Except.error e) => some (Except.error e)
        | some (Except.ok l2) => some (Except.ok (l1 ++ l2))

/-- `SrtScript.check_len_and_split`: rebuild the segment list, replacing
every segment that satisfies the split guard with its `split_seg`
expansion and keeping the others. -/
def checkLenAndSplitF (sl tl : Lang) (tThr : ℕ) (tiThr : ℚ) (fuel : ℕ) :
    List Segment → Option (Except Unit (List Segment))
  | [] => some (Except.ok [])
  | seg :: rest =>
    match (if needsSplitB tThr tiThr seg then
        splitSegF sl tl tThr tiThr fuel seg
      else some (Except.ok [seg])) with
    | none => none
    | some (Except.error e) => some (Except.error e)
    | some (Except.ok l) =>
      match checkLenAndSplitF sl tl tThr tiThr fuel rest with
      | none => none
      | some (Except.error e) => some (Except.error e)
      | some (Except.ok ls) => some (Except.ok (l ++ ls))

/-- View of an `Except` result as an `Option` (raised = `none`). -/
def exceptToOption {α : Type} : Except Unit α → Option α
  | Except.error _ => none
  | Except.ok a => some a

/-- Round trip of C7: build a segment from a raw record, then re-parse its
displayed duration through the text-block constructor, returning the
re-parsed (start, end) timestamps (`none` when the constructor raises). -/
def roundTrip (sl tl : Lang) (s e : ℚ) (txt : List Char) :
    Option (ℚ × ℚ) :=
  (exceptToOption (constructRecord sl tl s e txt)).map fun seg =>
    ((constructBlock sl tl seg.startP seg.endP txt none).start,
      (constructBlock sl tl seg.startP seg.endP txt none).stop)

/-- A segment literal with the given texts and raw timestamps; the display
fields are placeholders (they play no role in the scan/merge/guard logic
that reads only the four data fields). -/
def mkSimpleSeg (src trans : List Char) (s e : ℚ) : Segment :=
  { srcLang := EN
    tgtLang := EN
    sourceText := src
    translation := trans
    start := s
    stop := e
    startMs := 0
    endMs := 0
    startP := (0, 0)
    endP := (0, 0)
    duration := ((0, 0), (0, 0)) }

/-- A segment whose translation starts with the English comma string
`", "` followed by 35 letters: the single-character comparison
`seg.translation[0] == tgt_comma_str` can never equal the two-character
comma, so the strip never fires and the median translation comma sits at
position 0. -/
def tr0 : List Char := ',' :: ' ' :: List.replicate 35 'a'

/-- The segment on which `split_seg` recurses forever: source text with no
comma and no space, translation `tr0` (37 characters), duration 2 seconds.
Its fields are exactly what `constructRecord 0 2 "abcdef"` produces, so the
second half built by one bisection step is this segment again. -/
def seg0 : Segment :=
  { srcLang := EN, tgtLang := EN, sourceText := ['a', 'b', 'c', 'd', 'e', 'f'],
    translation := tr0, start := 0, stop := 2, startMs := 0, endMs := 0,
    startP := (0, 0), endP := (2, 0), duration := ((0, 0), (2, 0)) }

/-- The degenerate first half produced by one bisection step on `seg0`:
empty texts, zero-length duration (display nudged to +500ms). -/
def seg1v : Segment :=
  { srcLang := EN, tgtLang := EN, sourceText := [], translation := [],
    start := 0, stop := 0, startMs := 0, endMs := 500,
    startP := (0, 0), endP := (0, 500), duration := ((0, 0), (0, 500)) }

/-- The segment the record constructor builds from
`{start: 5, end: 3, text: "hi"}` — a record with `end < start`. -/
def c4seg : Segment :=
  { srcLang := EN, tgtLang := EN, sourceText := ['h', 'i'], translation := [],
    start := 5, stop := 3, startMs := 0, endMs := 0,
    startP := (5, 0), endP := (3, 0), duration := ((5, 0), (3, 0)) }

/-- A ZH segment whose two-character translation starts with the
single-character comma `，`: the strip inside `split_seg` reduces it to
length 1 and the time-split-ratio divisor becomes zero. -/
def zhSeg : Segment :=
  { srcLang := ZH, tgtLang := ZH, sourceText := ['a', 'b'],
    translation := ['，', 'x'], start := 0, stop := 1, startMs := 0,
    endMs := 0, startP := (0, 0), endP := (1, 0),
    duration := ((0, 0), (1, 0)) }

/-- A segment that ends with a sentence terminator, is longer than 10
characters, does not end in "vs." — but contains "vs." in the middle. -/
def cseg : Segment := mkSimpleSeg ("Team A vs. Team B won.".data) [] 0 1

/-- A triggering segment used as a witness fixture. -/
def witSeg : Segment := mkSimpleSeg ("Hello there mates.".data) [] 0 1

/-- A single non-terminated segment: the whole collection is one trailing
unterminated run. -/
def helloSeg : Segment := mkSimpleSeg ("Hello".data) [] 0 1

/-- A translator stub that is never consulted. -/
def idleOracle (_n : ℕ) (_t : List Char) : Except Unit (List Char) :=
  Except.ok []

/-- A translator whose every other call raises: each corrective iteration
costs two calls, and the successful reply never has the required line
count. -/
def failingOracle (n : ℕ) (_t : List Char) : Except Unit (List Char) :=
  if n % 2 = 0 then Except.error () else Except.ok ['x']

/-- A translator that always answers. -/
def okOracle (_n : ℕ) (_t : List Char) : Except Unit (List Char) :=
  Except.ok ['z']

/-- C8: for chronologically contiguous segments, the value-form merge is
associative, and `merge_segs` over the three-element range equals either
association: the concatenated texts, the surviving start data and the
final end data agree field by field. -/
theorem c8_merge_assoc (a b c : Segment) (h1 : a.stop = b.start)
    (h2 : b.stop = c.start) :
    addSeg (addSeg a b) c = addSeg a (addSeg b c) ∧
      mergeSegsList [a, b, c] = some (addSeg a (addSeg b c)) := by
  have h : addSeg (addSeg a b) c = addSeg a (addSeg b c) := by
    simp [addSeg, mergeSeg, List.append_assoc]
  exact ⟨h, by simpa [mergeSegsList] using h⟩

/-- C8 witness: the associativity instance on three concrete contiguous
segments. -/
theorem c8_merge_assoc_witness :
    (mkSimpleSeg ['a'] ['x'] 0 1).stop = (mkSimpleSeg ['b'] ['y'] 1 2).start ∧
    (mkSimpleSeg ['b'] ['y'] 1 2).stop = (mkSimpleSeg ['c'] ['z'] 2 3).start ∧
    (addSeg (addSeg (mkSimpleSeg ['a'] ['x'] 0 1) (mkSimpleSeg ['b'] ['y'] 1 2))
        (mkSimpleSeg ['c'] ['z'] 2 3) =
      addSeg (mkSimpleSeg ['a'] ['x'] 0 1)
        (addSeg (mkSimpleSeg ['b'] ['y'] 1 2) (mkSimpleSeg ['c'] ['z'] 2 3)) ∧
      mergeSegsList [mkSimpleSeg ['a'] ['x'] 0 1, mkSimpleSeg ['b'] ['y'] 1 2,
          mkSimpleSeg ['c'] ['z'] 2 3] =
        some (addSeg (mkSimpleSeg ['a'] ['x'] 0 1)
          (addSeg (mkSimpleSeg ['b'] ['y'] 1 2)
            (mkSimpleSeg ['c'] ['z'] 2 3)))) :=
  ⟨by decide, by decide,
    c8_merge_assoc (mkSimpleSeg ['a'] ['x'] 0 1) (mkSimpleSeg ['b'] ['y'] 1 2)
      (mkSimpleSeg ['c'] ['z'] 2 3) (by decide) (by decide)⟩

/-- C9: the `+` operator returns the merge of a copy of the receiver with
the argument, and in the state-passing view both operands come out of the
operation unmodified in every field; the result's fields are the merged
texts, the receiver's start data and the argument's end data. -/
theorem c9_add_value_form (a b : Segment) :
    (addOp a b).1 = mergeSeg a b ∧
      (addOp a b).2.1 = a ∧
      (addOp a b).2.2 = b ∧
      (addOp a b).1.sourceText = a.sourceText ++ ' ' :: b.sourceText ∧
      (addOp a b).1.translation = a.translation ++ ' ' :: b.translation ∧
      (addOp a b).1.start = a.start ∧
      (addOp a b).1.startMs = a.startMs ∧
      (addOp a b).1.startP = a.startP ∧
      (addOp a b).1.stop = b.stop ∧
      (addOp a b).1.endMs = b.endMs ∧
      (addOp a b).1.endP = b.endP ∧
      (addOp a b).1.duration = (a.startP, b.endP) := by
  refine ⟨rfl, rfl, rfl, ?_, ?_, rfl, rfl, rfl, rfl, rfl, rfl, rfl⟩ <;>
    simp [addOp, mergeSegOp, deepcopySeg, mergeSeg]

/-- Python `int` truncation is the identity on integers. -/
theorem truncQ_intCast (a : ℤ) : truncQ (a : ℚ) = a := by
  unfold truncQ
  split_ifs with h
  · rw [← Int.cast_neg, Int.floor_intCast]; omega
  · rw [Int.floor_intCast]

/-- The millisecond expression `(t * 100) % 100 * 10` is 1000 times the
fractional part of `t`. -/
theorem pymod_hundred (t : ℚ) :
    pymod (t * 100) 100 * 10 = 1000 * Int.fract t := by
  unfold pymod
  have h : t * 100 / 100 = t := mul_div_cancel_right₀ t (by norm_num)
  rw [h]
  have h2 : Int.fract t = t - ⌊t⌋ := rfl
  rw [h2]; ring

/-- `msInt` is the floor of 1000 times the fractional part. -/
theorem msInt_eq (t : ℚ) : msInt t = ⌊1000 * Int.fract t⌋ := by
  unfold msInt truncQ
  rw [pymod_hundred, if_neg]
  exact not_lt.mpr (mul_nonneg (by norm_num) (Int.fract_nonneg t))

/-- The millisecond component is never negative. -/
theorem msInt_nonneg (t : ℚ) : 0 ≤ msInt t := by
  rw [msInt_eq]
  exact Int.floor_nonneg.mpr (mul_nonneg (by norm_num) (Int.fract_nonneg t))

/-- The millisecond component is at most 999. -/
theorem msInt_le (t : ℚ) : msInt t ≤ 999 := by
  rw [msInt_eq]
  have h : (1000 : ℚ) * Int.fract t < 1000 := by
    nlinarith [Int.fract_lt_one t, Int.fract_nonneg t]
  have h2 : ⌊(1000 : ℚ) * Int.fract t⌋ < 1000 :=
    Int.floor_lt.mpr (by exact_mod_cast h)
  omega

/-- Integral timestamps have a zero millisecond component. -/
theorem msInt_intCast (a : ℤ) : msInt (a : ℚ) = 0 := by
  rw [msInt_eq, Int.fract_intCast]
  norm_num

/-- Evaluation of the record constructor on timestamps with zero
millisecond components and distinct integer parts (nudge does not fire). -/
theorem constructRecord_ms0_ne (sl tl : Lang) (a b : ℚ) (txt : List Char)
    (ha : msInt a = 0) (hb : msInt b = 0) (hne : truncQ a ≠ truncQ b) :
    constructRecord sl tl a b txt = Except.ok
      { srcLang := sl, tgtLang := tl, sourceText := lstripChars txt,
        translation := [], start := a, stop := b, startMs := 0, endMs := 0,
        startP := (truncQ a, 0), endP := (truncQ b, 0),
        duration := ((truncQ a, 0), (truncQ b, 0)) } := by
  simp only [constructRecord, ha, hb, mkTimePair, hne]
  norm_num

/-- Evaluation of the record constructor on timestamps with zero
millisecond components and equal integer parts: the +500ms nudge fires. -/
theorem constructRecord_ms0_eq (sl tl : Lang) (a b : ℚ) (txt : List Char)
    (ha : msInt a = 0) (hb : msInt b = 0) (heq : truncQ a = truncQ b) :
    constructRecord sl tl a b txt = Except.ok
      { srcLang := sl, tgtLang := tl, sourceText := lstripChars txt,
        translation := [], start := a, stop := b, startMs := 0, endMs := 500,
        startP := (truncQ a, 0), endP := (truncQ b, 500),
        duration := ((truncQ a, 0), (truncQ b, 500)) } := by
  simp only [constructRecord, ha, hb, mkTimePair, heq]
  norm_num

/-- Evaluation of the record constructor when the nudge condition fails:
always succeeds, storing the raw timestamps and display pairs. -/
theorem constructRecord_of_ne (sl tl : Lang) (s e : ℚ) (txt : List Char)
    (hn : ¬(msInt s = msInt e ∧ truncQ s = truncQ e)) :
    constructRecord sl tl s e txt = Except.ok
      { srcLang := sl, tgtLang := tl, sourceText := lstripChars txt,
        translation := [], start := s, stop := e,
        startMs := (msInt s : ℚ), endMs := (msInt e : ℚ),
        startP := mkTimePair (truncQ s) (msInt s),
        endP := mkTimePair (truncQ e) (msInt e),
        duration := (mkTimePair (truncQ s) (msInt s),
          mkTimePair (truncQ e) (msInt e)) } := by
  have hs0 := msInt_nonneg s
  have hs9 := msInt_le s
  have he0 := msInt_nonneg e
  have he9 := msInt_le e
  simp only [constructRecord]
  rw [if_neg hn, if_neg (by omega : ¬(msInt s ≠ 0 ∧ msInt s % 1000 = 0)),
    if_neg (by omega : ¬(msInt e ≠ 0 ∧ msInt e % 1000 = 0))]

/-- `msInt` at the literal 0. -/
theorem msInt_zero : msInt 0 = 0 := by simpa using msInt_intCast 0

/-- `msInt` at the literal 2. -/
theorem msInt_two : msInt 2 = 0 := by simpa using msInt_intCast 2

/-- `truncQ` at the literal 0. -/
theorem truncQ_zero : truncQ 0 = 0 := by simpa using truncQ_intCast 0

/-- `truncQ` at the literal 2. -/
theorem truncQ_two : truncQ 2 = 2 := by simpa using truncQ_intCast 2

/-- The record constructor on `{start: 0, end: 0, text: ""}` (the first
half of the bisection of `seg0`): the empty-timestamp nudge fires. -/
theorem constructRecord_half1 : constructRecord EN EN 0 0 [] = Except.ok
    { srcLang := EN, tgtLang := EN, sourceText := [], translation := [],
      start := 0, stop := 0, startMs := 0, endMs := 500,
      startP := (0, 0), endP := (0, 500),
      duration := ((0, 0), (0, 500)) } := by
  rw [constructRecord_ms0_eq EN EN 0 0 [] msInt_zero msInt_zero rfl]
  simp [truncQ_zero, lstripChars]

/-- The record constructor on `{start: 0, end: 2, text: "abcdef"}` (the
second half of the bisection of `seg0`). -/
theorem constructRecord_half2 :
    constructRecord EN EN 0 2 ['a', 'b', 'c', 'd', 'e', 'f'] =
    Except.ok
      { srcLang := EN, tgtLang := EN,
        sourceText := ['a', 'b', 'c', 'd', 'e', 'f'], translation := [],
        start := 0, stop := 2, startMs := 0, endMs := 0,
        startP := (0, 0), endP := (2, 0),
        duration := ((0, 0), (2, 0)) } := by
  have hne : truncQ 0 ≠ truncQ 2 := by rw [truncQ_zero, truncQ_two]; decide
  have hl : lstripChars ['a', 'b', 'c', 'd', 'e', 'f'] =
      ['a', 'b', 'c', 'd', 'e', 'f'] := by decide
  rw [constructRecord_ms0_ne EN EN 0 2 _ msInt_zero msInt_two hne]
  simp [truncQ_zero, truncQ_two, hl]

/-- One bisection step on `seg0` returns the degenerate empty first half
and `seg0` itself as the second half: the state of the recursion repeats
exactly. -/
theorem splitOnce_seg0 : splitOnce EN EN seg0 = Except.ok (seg1v, seg0) := by
  have hst : stripSrcComma EN ['a', 'b', 'c', 'd', 'e', 'f'] =
      ['a', 'b', 'c', 'd', 'e', 'f'] := by decide
  have hpost : postStripTrans EN (',' :: ' ' :: List.replicate 35 'a') =
      ',' :: ' ' :: List.replicate 35 'a' := by decide
  have htr : transSplitIdx EN (',' :: ' ' :: List.replicate 35 'a') = 0 := by
    decide
  have hsrc : srcSplitIdx EN ['a', 'b', 'c', 'd', 'e', 'f'] = 0 := by decide
  have hlen : (',' :: ' ' :: List.replicate 35 'a').length = 37 := by decide
  simp only [splitOnce, seg0, tr0, hst, hpost, htr, hsrc, hlen]
  norm_num [constructRecord_half1, constructRecord_half2, seg1v, tr0]

/-- The empty first half fails the split guard. -/
theorem needsSplitB_seg1v : needsSplitB 30 1 seg1v = false := by decide

/-- `seg0` satisfies the split guard at the default thresholds. -/
theorem needsSplitB_seg0 : needsSplitB 30 1 seg0 = true := by
  have hlen : tr0.length = 37 := by decide
  simp [needsSplitB, seg0, hlen]

/-- `split_seg` on `seg0` exhausts any recursion depth: each unfolding
reproduces the identical call. -/
theorem splitSegF_seg0 : ∀ n, splitSegF EN EN 30 1 n seg0 = none := by
  intro n
  induction n with
  | zero => rfl
  | succ n ih =>
    simp [splitSegF, splitOnce_seg0, needsSplitB_seg1v, needsSplitB_seg0, ih]

/-- C6: the claim that the recursive split terminates (with every leaf
below a threshold or at the single-character floor) is violated by the
code: on the collection `[seg0]` — an EN segment whose 37-character
translation starts with `", "` and whose duration is 2s, both over the
default thresholds — `check_len_and_split` recurses forever (the
translation strip `seg.translation[0] == tgt_comma_str` can never fire
for a two-character comma string, the median translation comma sits at
index 0, and the second half of the bisection equals the input segment),
so no recursion depth `n` suffices. -/
theorem c6_split_nontermination (n : ℕ) :
    checkLenAndSplitF EN EN 30 1 n [seg0] = none := by
  simp [checkLenAndSplitF, needsSplitB_seg0, splitSegF_seg0 n]

/-- C4 counterexample: the record constructor does NOT fail on
`{start: 5, end: 3, text: "hi"}` although `end < start`; it returns a
normal segment with the reversed timestamps stored as given.  The claim's
invalid-input failure does not exist in the code. -/
theorem c4_no_validation_cex :
    constructRecord EN EN 5 3 ['h', 'i'] = Except.ok c4seg := by
  have h5 : msInt 5 = 0 := by simpa using msInt_intCast 5
  have h3 : msInt 3 = 0 := by simpa using msInt_intCast 3
  have t5 : truncQ 5 = 5 := by simpa using truncQ_intCast 5
  have t3 : truncQ 3 = 3 := by simpa using truncQ_intCast 3
  have hne : truncQ 5 ≠ truncQ 3 := by rw [t5, t3]; decide
  have hl : lstripChars ['h', 'i'] = ['h', 'i'] := by decide
  rw [constructRecord_ms0_ne EN EN 5 3 _ h5 h3 hne]
  simp [t5, t3, hl, c4seg]

/-- C4 (amended): the record-form constructor performs no timestamp-order
validation; it succeeds on every record — `end < start` included — except
when the empty-timestamp nudge lands the end display at exactly 1000
milliseconds (equal integer seconds, equal millisecond components of
exactly 500), where the Python string surgery raises `IndexError`.  The
successful segment stores the raw timestamps and the left-trimmed text. -/
theorem c4_constructor_total (s e : ℚ) (txt : List Char)
    (h : ¬(msInt s = msInt e ∧ truncQ s = truncQ e ∧ msInt e = 500)) :
    ∃ seg, constructRecord EN EN s e txt = Except.ok seg ∧
      seg.start = s ∧ seg.stop = e ∧ seg.sourceText = lstripChars txt := by
  have hs0 := msInt_nonneg s
  have hs9 := msInt_le s
  have he0 := msInt_nonneg e
  have he9 := msInt_le e
  simp only [constructRecord]
  by_cases hn : msInt s = msInt e ∧ truncQ s = truncQ e
  · have h500 : msInt e ≠ 500 := fun hx => h ⟨hn.1, hn.2, hx⟩
    rw [if_pos hn, if_neg (by omega : ¬(msInt s ≠ 0 ∧ msInt s % 1000 = 0)),
      if_neg (by omega : ¬(msInt e + 500 ≠ 0 ∧ (msInt e + 500) % 1000 = 0))]
    exact ⟨_, rfl, rfl, rfl, rfl⟩
  · rw [if_neg hn, if_neg (by omega : ¬(msInt s ≠ 0 ∧ msInt s % 1000 = 0)),
      if_neg (by omega : ¬(msInt e ≠ 0 ∧ msInt e % 1000 = 0))]
    exact ⟨_, rfl, rfl, rfl, rfl⟩

/-- C4 witness: the amended theorem applied to the `end < start` record
`{start: 5, end: 3, text: "hi"}`. -/
theorem c4_constructor_total_witness :
    (¬(msInt 5 = msInt 3 ∧ truncQ 5 = truncQ 3 ∧ msInt 3 = 500)) ∧
    ∃ seg, constructRecord EN EN 5 3 ['h', 'i'] = Except.ok seg ∧
      seg.start = 5 ∧ seg.stop = 3 ∧
      seg.sourceText = lstripChars ['h', 'i'] := by
  have t5 : truncQ 5 = 5 := by simpa using truncQ_intCast 5
  have t3 : truncQ 3 = 3 := by simpa using truncQ_intCast 3
  have hh : ¬(msInt 5 = msInt 3 ∧ truncQ 5 = truncQ 3 ∧ msInt 3 = 500) := by
    rintro ⟨-, h2, -⟩
    rw [t5, t3] at h2
    exact absurd h2 (by decide)
  exact ⟨hh, c4_constructor_total 5 3 ['h', 'i'] hh⟩

/-- The display pair of a timestamp parses back to within 1ms below the
original (milliseconds are floored, never rounded up). -/
theorem parse_close (t : ℚ) (ht : 0 ≤ t) :
    |(((truncQ t + msInt t / 1000 : ℤ) : ℚ) +
      ((msInt t % 1000 : ℤ) : ℚ) / 10 / 100) - t| < 1 / 1000 := by
  have htr : truncQ t = ⌊t⌋ := by unfold truncQ; rw [if_neg (not_lt.mpr ht)]
  have hm0 := msInt_nonneg t
  have hm9 := msInt_le t
  have hdiv : msInt t / 1000 = 0 := Int.ediv_eq_zero_of_lt hm0 (by omega)
  have hmod : msInt t % 1000 = msInt t := Int.emod_eq_of_lt hm0 (by omega)
  have hfl : (msInt t : ℚ) ≤ 1000 * Int.fract t := by
    rw [msInt_eq]; exact Int.floor_le _
  have hfu : 1000 * Int.fract t - 1 < (msInt t : ℚ) := by
    rw [msInt_eq]; exact Int.sub_one_lt_floor _
  have hfr : t - ⌊t⌋ = Int.fract t := Int.self_sub_floor t
  rw [htr, hdiv, hmod, abs_sub_comm]
  have hnn : 0 ≤ t - (((⌊t⌋ + 0 : ℤ) : ℚ) + (msInt t : ℚ) / 10 / 100) := by
    push_cast
    linarith [hfl, hfr]
  rw [abs_of_nonneg hnn]
  push_cast
  linarith [hfu, hfr]

/-- C7 (amended): for `0 ≤ start < end`, when the empty-timestamp nudge
does not fire (the two timestamps differ in integer seconds or in
millisecond component), formatting the duration and parsing it back
through the text-block constructor recovers both timestamps to within one
millisecond; when the nudge fires, the end time is displaced by +500ms
and the 1ms bound fails (see the counterexample). -/
theorem c7_duration_roundtrip (s e : ℚ) (txt : List Char) (hs : 0 ≤ s)
    (hse : s < e) (hn : ¬(msInt s = msInt e ∧ truncQ s = truncQ e)) :
    ∃ p, roundTrip EN EN s e txt = some p ∧
      |p.1 - s| < 1 / 1000 ∧ |p.2 - e| < 1 / 1000 := by
  have he : (0 : ℚ) ≤ e := le_of_lt (lt_of_le_of_lt hs hse)
  have hq : roundTrip EN EN s e txt = some
      (((((truncQ s + msInt s / 1000 : ℤ) : ℚ) +
        ((msInt s % 1000 : ℤ) : ℚ) / 10 / 100),
        (((truncQ e + msInt e / 1000 : ℤ) : ℚ) +
        ((msInt e % 1000 : ℤ) : ℚ) / 10 / 100))) := by
    simp only [roundTrip, constructRecord_of_ne EN EN s e txt hn]
    simp [exceptToOption, constructBlock, mkTimePair]
  exact ⟨_, hq, parse_close s hs, parse_close e he⟩

/-- C7 witness: the round trip at `start = 0`, `end = 1/2`. -/
theorem c7_duration_roundtrip_witness :
    ((0:ℚ) ≤ 0 ∧ (0:ℚ) < 1/2 ∧
      ¬(msInt 0 = msInt (1/2) ∧ truncQ 0 = truncQ (1/2))) ∧
    ∃ p, roundTrip EN EN 0 (1/2) ['h'] = some p ∧
      |p.1 - 0| < 1 / 1000 ∧ |p.2 - 1/2| < 1 / 1000 := by
  have hmh : msInt (1/2) = 500 := by
    rw [msInt_eq]
    norm_num [Int.fract]
  have hn : ¬(msInt 0 = msInt (1/2) ∧ truncQ 0 = truncQ (1/2)) := by
    rintro ⟨h1, -⟩
    rw [msInt_zero, hmh] at h1
    exact absurd h1 (by decide)
  exact ⟨⟨le_refl 0, by norm_num, hn⟩,
    c7_duration_roundtrip 0 (1/2) ['h'] (le_refl 0) (by norm_num) hn⟩

/-- C7 counterexample: on the record `{start: 1, end: 1 + 1/1024}` (a
positive-duration record) the nudge fires — both millisecond components
floor to 0 and the integer seconds agree — so the parsed end time is 1.5,
which is off from the original end by far more than one millisecond. -/
theorem c7_nudge_cex :
    roundTrip EN EN 1 (1 + (1:ℚ)/1024) ['h'] = some (1, 3/2) ∧
    ¬(|(3/2 : ℚ) - (1 + (1:ℚ)/1024)| ≤ 1/1000) := by
  have hm1 : msInt 1 = 0 := by simpa using msInt_intCast 1
  have hm2 : msInt (1 + (1:ℚ)/1024) = 0 := by
    rw [msInt_eq]
    norm_num [Int.fract]
  have ht1 : truncQ 1 = 1 := by simpa using truncQ_intCast 1
  have ht2 : truncQ (1 + (1:ℚ)/1024) = 1 := by
    unfold truncQ
    rw [if_neg (by norm_num)]
    norm_num
  constructor
  · rw [roundTrip, constructRecord_ms0_eq EN EN 1 (1 + (1:ℚ)/1024) ['h'] hm1
      hm2 (by rw [ht1, ht2])]
    simp only [exceptToOption, Option.map_some', constructBlock]
    rw [ht1, ht2]
    norm_num
  · rw [abs_of_nonneg (by norm_num)]
    norm_num

/-- C10 counterexample: with `text_threshold = 1` (which is ≥ 1 as the
claim allows) a guarded ZH segment of translation length 2 beginning with
the single-character comma reaches the division with divisor
`len(seg.translation) - 1 = 0`: the in-body strip shortens the
translation to length 1 before the ratio is computed, so the
division-by-zero branch IS reachable under the claim's precondition. -/
theorem c10_strip_divzero_cex :
    needsSplitB 1 0 zhSeg = true ∧
    checkLenAndSplitF ZH ZH 1 0 1 [zhSeg] = some (Except.error ()) := by
  have hz : needsSplitB 1 0 zhSeg = true := by
    simp [needsSplitB, zhSeg]
  have hp : postStripTrans ZH ('，' :: 'x' :: []) = ['x'] := by decide
  have hsp : splitOnce ZH ZH zhSeg = Except.error () := by
    simp [splitOnce, zhSeg, hp]
  refine ⟨hz, ?_⟩
  simp [checkLenAndSplitF, hz, splitSegF, hsp]

/-- C10 (amended): every call to `split_seg` made by `check_len_and_split`
or by the recursion is guarded by `needsSplitB`, so the translation has
length at least `text_threshold + 1` at entry; since the in-body strip
removes at most one leading character, with `text_threshold ≥ 2` the
translation still has length ≥ 2 at the division and the divisor
`len(seg.translation) - 1` is nonzero.  (With `text_threshold = 1` this
fails; see the counterexample.) -/
theorem c10_divisor_nonzero (tThr : ℕ) (tiThr : ℚ) (tl : Lang)
    (seg : Segment) (h2 : 2 ≤ tThr) (hg : needsSplitB tThr tiThr seg = true) :
    2 ≤ (postStripTrans tl seg.translation).length ∧
      ((postStripTrans tl seg.translation).length : ℚ) - 1 ≠ 0 := by
  have hlen : tThr < seg.translation.length := by
    have h := hg
    simp [needsSplitB] at h
    exact h.1
  have hpost : 2 ≤ (postStripTrans tl seg.translation).length := by
    rcases hsrc : seg.translation with - | ⟨t0, ts⟩
    · rw [hsrc] at hlen
      simp only [List.length_nil] at hlen
      omega
    · rw [hsrc] at hlen
      simp only [List.length_cons] at hlen
      simp only [postStripTrans]
      split_ifs
      · omega
      · simp only [List.length_cons]
        omega
  refine ⟨hpost, ?_⟩
  have h2q : (2 : ℚ) ≤ ((postStripTrans tl seg.translation).length : ℚ) := by
    exact_mod_cast hpost
  intro hzero
  nlinarith [h2q]

/-- C10 witness: the amended theorem at threshold 2 on a three-character
translation. -/
theorem c10_divisor_nonzero_witness :
    ((2:ℕ) ≤ 2 ∧
      needsSplitB 2 0 (mkSimpleSeg ['a'] ['x', 'y', 'z'] 0 1) = true) ∧
    (2 ≤ (postStripTrans EN
        (mkSimpleSeg ['a'] ['x', 'y', 'z'] 0 1).translation).length ∧
      ((postStripTrans EN
        (mkSimpleSeg ['a'] ['x', 'y', 'z'] 0 1).translation).length : ℚ)
        - 1 ≠ 0) := by
  have hg : needsSplitB 2 0 (mkSimpleSeg ['a'] ['x', 'y', 'z'] 0 1) = true := by
    simp [needsSplitB, mkSimpleSeg]
  exact ⟨⟨le_refl 2, hg⟩, c10_divisor_nonzero 2 0 EN _ (le_refl 2) hg⟩

/-- C5 counterexample: the segment `cseg` ("Team A vs. Team B won.") ends
with a sentence terminator, has length > 10 and does not END in "vs.", so
under the claim's trigger the scan should close and merge its run — but
the code checks `'vs.' not in seg.source_text` (containment anywhere), so
it accumulates the segment instead: the scan loop leaves it in the open
leftover run and closes no run at all. -/
theorem c5_vs_guard_cex :
    triggerClaimed EN cseg = true ∧ runsOf EN [cseg] = ([], [cseg]) := by
  constructor
  · decide
  · decide

/-- Accumulator-generalised characterisation of the scan loop of
`form_whole_sentence`. -/
theorem runsOfAux_spec (l : Lang) :
    ∀ (segs acc : List Segment), (∀ s ∈ acc, trigger l s = false) →
      ((runsOfAux l segs acc).1.join ++ (runsOfAux l segs acc).2 =
        acc ++ segs) ∧
      (∀ r ∈ (runsOfAux l segs acc).1, ∃ pre last, r = pre ++ [last] ∧
        trigger l last = true ∧ ∀ s ∈ pre, trigger l s = false) ∧
      (∀ s ∈ (runsOfAux l segs acc).2, trigger l s = false) := by
  intro segs
  induction segs with
  | nil =>
    intro acc hacc
    refine ⟨by simp [runsOfAux], by simp [runsOfAux], ?_⟩
    simpa [runsOfAux] using hacc
  | cons s rest ih =>
    intro acc hacc
    by_cases ht : trigger l s = true
    · simp only [runsOfAux, if_pos ht]
      obtain ⟨hjoin, hruns, hleft⟩ := ih [] (by simp)
      refine ⟨?_, ?_, hleft⟩
      · simp only [List.join_cons]
        rw [List.append_assoc, hjoin]
        simp
      · intro r hr
        rcases List.mem_cons.mp hr with hr | hr
        · exact ⟨acc, s, by rw [hr], ht, hacc⟩
        · exact hruns r hr
    · simp only [runsOfAux, if_neg ht]
      have hacc' : ∀ x ∈ acc ++ [s], trigger l x = false := by
        intro x hx
        rcases List.mem_append.mp hx with hx | hx
        · exact hacc x hx
        · rw [List.mem_singleton.mp hx]
          exact Bool.not_eq_true _ ▸ eq_false_of_ne_true ht
      have h := ih (acc ++ [s]) hacc'
      simpa [List.append_assoc] using h

/-- C5 (amended): the scan of `form_whole_sentence` closes a run exactly
at segments satisfying the code's trigger — source text ending in a
source-language sentence terminator AND length > 10 AND not CONTAINING
the substring "vs." anywhere (not merely not ending in it): every closed
run is a block of non-triggering segments followed by one triggering
segment, the leftover open run is all non-triggering, and together they
partition the collection in order.  (Source texts are assumed nonempty;
on an empty source text the Python indexing `[-1]` would raise.) -/
theorem c5_trigger_partition (l : Lang) (segs : List Segment)
    (hne : ∀ s ∈ segs, s.sourceText ≠ []) :
    ((runsOf l segs).1.join ++ (runsOf l segs).2 = segs) ∧
    (∀ r ∈ (runsOf l segs).1, ∃ pre last, r = pre ++ [last] ∧
      trigger l last = true ∧ ∀ s ∈ pre, trigger l s = false) ∧
    (∀ s ∈ (runsOf l segs).2, trigger l s = false) := by
  have h := runsOfAux_spec l segs [] (by simp)
  simpa [runsOf] using h

/-- C5 witness: the partition on a one-segment triggering collection. -/
theorem c5_trigger_partition_witness :
    (∀ s ∈ [witSeg], s.sourceText ≠ []) ∧
    (((runsOf EN [witSeg]).1.join ++ (runsOf EN [witSeg]).2 = [witSeg]) ∧
    (∀ r ∈ (runsOf EN [witSeg]).1, ∃ pre last, r = pre ++ [last] ∧
      trigger EN last = true ∧ ∀ s ∈ pre, trigger EN s = false) ∧
    (∀ s ∈ (runsOf EN [witSeg]).2, trigger EN s = false)) :=
  ⟨by decide, c5_trigger_partition EN [witSeg] (by decide)⟩

/-- C1: the claim that a trailing unterminated run is merged and appended
is violated by the code: the scan loop of `form_whole_sentence` only
stores a run in `merge_list` when a trigger closes it, and the rebuild
iterates over `merge_list` alone, so the collection `["Hello"]` — a
single segment with no sentence terminator — rebuilds to the EMPTY
collection: the trailing run is silently dropped, losing the segment. -/
theorem c1_trailing_run_dropped : formWholeSentence EN [helloSeg] = [] := by
  decide

/-- C2: the claim that a "Note:"-line is discarded without consuming a
segment slot is violated by the code: the discard branch executes
`max_num -= 1` on a variable defined nowhere in `set_translation` (or the
module), so Python raises an unbound-variable error.  Here the translator
returns exactly the required 2 lines ("Hola\n\nNote: extra" for segments
1-2), no corrective request is made, the first line is assigned, and the
call then raises on the "Note:" line. -/
theorem c2_note_line_raises :
    setTranslationF idleOracle 1 1 2 ("Hola\n\nNote: extra".data)
      [mkSimpleSeg ['a'] [] 0 1, mkSimpleSeg ['b'] [] 1 2] =
    some (Except.error ()) := by
  rfl

/-- C3 counterexample: the claim bounds the total number of corrective
translator requests by 5 even when calls raise; but the inner retry loop
of `set_translation` retries a failing call with no bound of its own.
With a translator whose every other call raises (`failingOracle`) and a
reply that never reaches the required 2 lines, the 5 corrective
iterations issue 10 translator calls in total. -/
theorem c3_total_calls_cex :
    retryLoopAux failingOracle 2 2 5 [['x']] ['x'] 0 0 =
      some ([['x']], 10, 5) ∧ ¬((10 : ℕ) ≤ 5) := by
  constructor
  · decide
  · decide

/-- Call-count bound for the reconciliation loop when every translator
call succeeds, generalised over the remaining iteration budget. -/
theorem retry_ok_aux :
    ∀ (r : ℕ) (oracle : ℕ → List Char → Except Unit (List Char))
      (required f : ℕ) (lines : List (List Char)) (t : List Char)
      (k count : ℕ),
      (∀ n s, ∃ out, oracle n s = Except.ok out) →
      ∃ res, retryLoopAux oracle required (f + 1) r lines t k count =
        some res ∧ res.2.1 ≤ k + r ∧ res.2.2 ≤ count + r := by
  intro r
  induction r with
  | zero =>
    intro oracle required f lines t k count _
    exact ⟨(lines, k, count), rfl, by simp, by simp⟩
  | succ r ih =>
    intro oracle required f lines t k count hok
    simp only [retryLoopAux]
    by_cases hl : lines.length = required
    · rw [if_pos hl]
      exact ⟨(lines, k, count), rfl, by simp, by simp⟩
    · rw [if_neg hl]
      obtain ⟨out, hout⟩ := hok k t
      simp only [innerRetry, hout]
      obtain ⟨res, hres, h1, h2⟩ :=
        ih oracle required f (splitOnNl out) out (k + 1) (count + 1) hok
      exact ⟨res, hres, by omega, by omega⟩

/-- The assignment loop leaves every segment beyond the available lines
with its existing translation. -/
theorem assign_keep :
    ∀ (segs : List Segment) (i : ℕ) (lines : List (List Char)),
      lines.length ≤ i → assignLoop i lines segs = Except.ok segs := by
  intro segs
  induction segs with
  | nil => intro i lines _; rfl
  | cons seg rest ih =>
    intro i lines h
    have hnone : lines[i]? = none := by
      rw [List.getElem?_eq_none h]
    simp only [assignLoop, hnone]
    rw [ih (i + 1) lines (by omega)]

/-- C3 (amended): the reconciliation loop performs at most 5 corrective
iterations; when every translator call succeeds it issues at most 5
translator requests in total and returns without raising (a failing call,
by contrast, is retried with no bound inside an iteration — see the
counterexample, where 10 requests are issued); and after the loop the
assignment walk leaves every segment beyond the available lines with its
existing translation rather than raising. -/
theorem c3_retry_bound :
    (∀ (oracle : ℕ → List Char → Except Unit (List Char))
      (required f : ℕ) (lines : List (List Char)) (t : List Char),
      (∀ n s, ∃ out, oracle n s = Except.ok out) →
      ∃ res, retryLoopAux oracle required (f + 1) 5 lines t 0 0 =
        some res ∧ res.2.1 ≤ 5 ∧ res.2.2 ≤ 5) ∧
    (∀ (i : ℕ) (lines : List (List Char)) (segs : List Segment),
      lines.length ≤ i → assignLoop i lines segs = Except.ok segs) := by
  constructor
  · intro oracle required f lines t hok
    obtain ⟨res, hres, h1, h2⟩ :=
      retry_ok_aux 5 oracle required f lines t 0 0 hok
    exact ⟨res, hres, by omega, by omega⟩
  · intro i lines segs h
    exact assign_keep segs i lines h

/-- C3 witness: the bound with an always-answering translator, and the
assignment walk beyond the available lines. -/
theorem c3_retry_bound_witness :
    ((∀ n s, ∃ out, okOracle n s = Except.ok out) ∧
      ∃ res, retryLoopAux okOracle 2 1 5 [['a']] ['a'] 0 0 = some res ∧
        res.2.1 ≤ 5 ∧ res.2.2 ≤ 5) ∧
    ((2 : ℕ) ≤ 3 ∧ assignLoop 3 [['a'], ['b']] [mkSimpleSeg ['a'] [] 0 1] =
      Except.ok [mkSimpleSeg ['a'] [] 0 1]) :=
  ⟨⟨fun _ _ => ⟨['z'], rfl⟩,
    c3_retry_bound.1 okOracle 2 0 [['a']] ['a'] (fun _ _ => ⟨['z'], rfl⟩)⟩,
    ⟨by decide, c3_retry_bound.2 3 [['a'], ['b']] _ (by decide)⟩⟩

/-- C9 witness: the value-form merge at two concrete segments. -/
theorem c9_add_value_form_witness :
    (addOp (mkSimpleSeg ['p'] ['q'] 0 1) (mkSimpleSeg ['r'] ['s'] 1 2)).1 =
      mergeSeg (mkSimpleSeg ['p'] ['q'] 0 1) (mkSimpleSeg ['r'] ['s'] 1 2) ∧
    (addOp (mkSimpleSeg ['p'] ['q'] 0 1) (mkSimpleSeg ['r'] ['s'] 1 2)).2.1 =
      mkSimpleSeg ['p'] ['q'] 0 1 ∧
    (addOp (mkSimpleSeg ['p'] ['q'] 0 1) (mkSimpleSeg ['r'] ['s'] 1 2)).2.2 =
      mkSimpleSeg ['r'] ['s'] 1 2 :=
  ⟨(c9_add_value_form (mkSimpleSeg ['p'] ['q'] 0 1)
      (mkSimpleSeg ['r'] ['s'] 1 2)).1,
    (c9_add_value_form (mkSimpleSeg ['p'] ['q'] 0 1)
      (mkSimpleSeg ['r'] ['s'] 1 2)).2.1,
    (c9_add_value_form (mkSimpleSeg ['p'] ['q'] 0 1)
      (mkSimpleSeg ['r'] ['s'] 1 2)).2.2.1⟩
